import Mathlib

/-!
# vfox: PowerShell script rendering and the scope model

A shallow embedding of

* `internal/shell/powershell.go`: `PowerShellEscape`, `pwsh.export`, `pwsh.unset`,
  `pwsh.Export`, `pwsh.Activate` and the `hook` text;
* `internal/base/scope.go`: the scope and location constants, `UseScope.String` and
  `Location.String`;
* `internal/util/checksum.go`: `Checksum.Verify` and `NoneChecksum`.

A Go `string` is a sequence of bytes; it is embedded as a list of values below 256.
-/

set_option maxRecDepth 100000

namespace Vfox

/-! ## Byte strings -/

/-- A Go `string`: a finite sequence of bytes. -/
abbrev GoString := List (Fin 256)

/-- The bytes of a string literal of the source: Go stores the UTF-8 encoding. -/
def str (s : String) : GoString :=
  s.data.flatMap (fun c => (String.utf8EncodeChar c).map (fun u => u.val))

/-! ## Character constants

`powershell.go` uses the character constants of package `shell`; their declaration is in
another file of that package. -/

/-- Modelled from the spec: the constant `ACK` is declared outside `powershell.go`;
it is the ASCII code of the acknowledge control character. -/
abbrev ACK : Fin 256 := 6

/-- Modelled from the spec: the constant `TAB` is declared outside `powershell.go`;
ASCII code 9. -/
abbrev TAB : Fin 256 := 9

/-- Modelled from the spec: the constant `LF` is declared outside `powershell.go`;
ASCII code 10. -/
abbrev LF : Fin 256 := 10

/-- Modelled from the spec: the constant `CR` is declared outside `powershell.go`;
ASCII code 13. -/
abbrev CR : Fin 256 := 13

/-- Modelled from the spec: the constant `US` is declared outside `powershell.go`;
ASCII code 31, the last C0 control character. -/
abbrev US : Fin 256 := 31

/-- Modelled from the spec: the constant `SINGLE_QUOTE` is declared outside
`powershell.go`; ASCII code 39. -/
abbrev SINGLE_QUOTE : Fin 256 := 39

/-- Modelled from the spec: the constant `PLUS` is declared outside `powershell.go`;
ASCII code 43. -/
abbrev PLUS : Fin 256 := 43

/-- Modelled from the spec: the constant `NINE` is declared outside `powershell.go`;
ASCII code 57. -/
abbrev NINE : Fin 256 := 57

/-- Modelled from the spec: the constant `UPPERCASE_Z` is declared outside
`powershell.go`; ASCII code 90. -/
abbrev UPPERCASE_Z : Fin 256 := 90

/-- Modelled from the spec: the constant `UNDERSCORE` is declared outside
`powershell.go`; ASCII code 95. -/
abbrev UNDERSCORE : Fin 256 := 95

/-- Modelled from the spec: the constant `BACKTICK` is declared outside `powershell.go`;
ASCII code 96. -/
abbrev BACKTICK : Fin 256 := 96

/-- Modelled from the spec: the constant `DEL` is declared outside `powershell.go`;
ASCII code 127. -/
abbrev DEL : Fin 256 := 127

/-! ## `PowerShellEscape` -/

/-- The two variables the closures of `PowerShellEscape` capture and update. -/
structure EscState where
  out : GoString
  escape : Bool
  deriving DecidableEq

/-- One lowercase hexadecimal digit, as `%x` prints it. -/
def hexDigit (n : Nat) : Fin 256 :=
  if n < 10 then Fin.ofNat (48 + n) else Fin.ofNat (87 + n)

/-- The text `fmt.Sprintf("%02x", char)` for a byte: two digits, zero padded. -/
def sprintf02x (char : Fin 256) : GoString :=
  [hexDigit (char.val / 16), hexDigit (char.val % 16)]

/-- Closure `hex`: `escape = true; out += fmt.Sprintf("\\x%02x", char)`. -/
def hex (st : EscState) (char : Fin 256) : EscState :=
  { out := st.out ++ (str "\\x" ++ sprintf02x char), escape := true }

/-- Closure `backslash`: `escape = true; out += string([]byte{BACKTICK, char})`. -/
def backslash (st : EscState) (char : Fin 256) : EscState :=
  { out := st.out ++ [BACKTICK, char], escape := true }

/-- Closure `escaped`: `escape = true; out += str`. -/
def escaped (st : EscState) (s : GoString) : EscState :=
  { out := st.out ++ s, escape := true }

/-- Closure `quoted`: `escape = true; out += string([]byte{char})`. -/
def quoted (st : EscState) (char : Fin 256) : EscState :=
  { out := st.out ++ [char], escape := true }

/-- Closure `literal`: `out += string([]byte{char})`; `escape` is left as it is. -/
def literal (st : EscState) (char : Fin 256) : EscState :=
  { out := st.out ++ [char], escape := st.escape }

/-- The body of the loop: the `switch` on `char`, cases tried in source order. -/
def step (st : EscState) (char : Fin 256) : EscState :=
  if char = ACK then hex st char
  else if char = TAB then escaped st (str "`t")
  else if char = LF then escaped st (str "`n")
  else if char = CR then escaped st (str "`r")
  else if char ≤ US then hex st char
  else if char = SINGLE_QUOTE then backslash st char
  else if char ≤ PLUS then quoted st char
  else if char ≤ NINE then literal st char
  else if char ≤ UPPERCASE_Z then literal st char
  else if char = UNDERSCORE then literal st char
  else if char = DEL then hex st char
  else quoted st char

/-- The loop `for i < l { char := in[i]; switch ...; i++ }` started from `out`, `escape`:
it runs the body once on each byte of the input, first to last. -/
def escapeLoop (inp : GoString) (st : EscState) : EscState :=
  inp.foldl step st

/-- `PowerShellEscape(str string) string`. -/
def PowerShellEscape (s : GoString) : GoString :=
  if s = [] then str "''"
  else
    let st := escapeLoop s { out := [], escape := false }
    if st.escape then str "'" ++ st.out ++ str "'" else st.out

/-- Method `(pwsh) escape`. -/
def pwsh.escape (s : GoString) : GoString := PowerShellEscape s

/-! ## Per-byte view of the loop -/

/-- The bytes one run of the loop body appends to `out` for `char`. -/
def emitted (char : Fin 256) : GoString :=
  (step { out := [], escape := false } char).out

/-- Whether one run of the loop body for `char` sets `escape`. -/
def escapes (char : Fin 256) : Bool :=
  (step { out := [], escape := false } char).escape

/-- The value of `out` when the loop ends, before the wrapping decision. -/
def rendered (s : GoString) : GoString :=
  (escapeLoop s { out := [], escape := false }).out

/-- The loop body started from `st`, expressed through the body started from the empty
state `r`. -/
def graft (st r : EscState) : EscState :=
  { out := st.out ++ r.out, escape := r.escape || st.escape }

/-! ## `pwsh.export` and `pwsh.unset` -/

/-- After an opening quote: is there a closing quote before the next line feed?
This is the part `.*'` of the pattern, tried right after a `'`. -/
def quoteClosed : GoString → Bool
  | [] => false
  | c :: cs =>
    if c = SINGLE_QUOTE then true
    else if c = LF then false
    else quoteClosed cs

/-- The call `regexp.MustCompile("'.*'").MatchString(value)` of the standard library: an
unanchored search for a single quote, any run of characters other than line feed, and a
single quote. A byte that is not valid UTF-8 is read as one replacement character, which
`.` matches, and neither the quote nor the line feed is ever part of a longer character,
so the search can be followed byte by byte. -/
def matchQuoted : GoString → Bool
  | [] => false
  | c :: cs =>
    if c = SINGLE_QUOTE then quoteClosed cs || matchQuoted cs
    else matchQuoted cs

/-- Method `(sh pwsh) export(key, value string) string`. -/
def pwsh.export (key value : GoString) : GoString :=
  let value := pwsh.escape value
  let value := if !(matchQuoted value) then str "'" ++ value ++ str "'" else value
  str "$env:" ++ pwsh.escape key ++ str "=" ++ value ++ str ";"

/-- Method `(sh pwsh) unset(key string) string`. -/
def pwsh.unset (key : GoString) : GoString :=
  str "Remove-Item -Path 'env:/" ++ pwsh.escape key ++ str "';"

/-! ## `pwsh.Export`

`Export` ranges over a value of type `env.Vars` with a `string` key and a `*string` value
that is compared with `nil`: a Go map from names to optional values. -/

/-- Modelled from the spec: the type `env.Vars` is declared in package `env`, outside the
sources at hand. It is the mutation set, a mapping from variable name to an optional value
(`none` for a `nil` pointer, "unset"), given here by its entries, whose keys are pairwise
distinct. -/
abbrev Vars := List (GoString × Option GoString)

/-- Modelled from the spec: the map assignment `e[k] = v` that builds a mutation set. A new
key adds an entry, a key already there has its value replaced. -/
def Vars.set (e : Vars) (k : GoString) (v : Option GoString) : Vars :=
  if e.any (fun kv => kv.1 = k) then e.map (fun kv => if kv.1 = k then (k, v) else kv)
  else e ++ [(k, v)]

/-- The body of `for key, value := range e`, run once per entry along the order `visit` in
which the `range` yields the entries, starting from the accumulated `out`. -/
def pwsh.exportLoop (visit : List (GoString × Option GoString)) (out : GoString) : GoString :=
  visit.foldl
    (fun out kv =>
      match kv.2 with
      | none => out ++ pwsh.unset kv.1
      | some value => out ++ pwsh.export kv.1 value)
    out

/-- Method `(sh pwsh) Export(e env.Vars) (out string)`. The Go language leaves the order
in which `range` visits a map unspecified (it may differ from one loop to the next), and
every entry is visited exactly once; the strings listed are the values the call can return,
one for each visiting order. -/
def pwsh.Export (e : Vars) : List GoString :=
  (List.permutations' e).map (fun visit => pwsh.exportLoop visit [])

/-! ## `pwsh.Activate` -/

/-- The lines of the constant `hook`, in order; the text of `hook` is these lines joined
by line feeds (the constant starts and ends with a line feed, hence the empty first and
last line). -/
def hookLines : List String :=
  [
   "",
   "",
   "<#",
   "All environment variables must be set in global scope",
   "DO NOT PUT IN MODULE.",
   "#>",
   "\x7b\x7b.EnvContent\x7d\x7d",
   "",
   "$env:__VFOX_PID = $pid;",
   "",
   "# remove any existing dynamic module of vfox",
   "if ($null -ne (Get-Module -Name \"version-fox\")) \x7b",
   "    Remove-Module -Name \"version-fox\" -Force",
   "\x7d",
   "",
   "# create a new module to override the prompt function",
   "New-Module -Name \"version-fox\" -ScriptBlock \x7b",
   "",
   "    <#",
   "    Due to a bug in PowerShell, we have to cleanup first when the shell open.",
   "    #>",
   "    & '\x7b\x7b.SelfPath\x7d\x7d' env --cleanup 2>$null | Out-Null;",
   "",
   "    $originalPrompt = $function:prompt;",
   "    $OutputEncoding = [console]::InputEncoding = [console]::OutputEncoding = [Text.UTF8Encoding]::UTF8;",
   "",
   "    $promptFunction = \x7b",
   "        $export = &\"\x7b\x7b.SelfPath\x7d\x7d\" env -s pwsh;",
   "        if ($export) \x7b",
   "            Invoke-Expression -Command $export;",
   "        \x7d",
   "        &$originalPrompt;",
   "    \x7d",
   "    $function:prompt = $promptFunction",
   "",
   "    <#",
   "     There is a bug here.",
   "     When powershell is closed via the x button, this event will not be fired.",
   "     See https://github.com/PowerShell/PowerShell/issues/8000",
   "    #>",
   "    $subscription = Register-EngineEvent -SourceIdentifier PowerShell.Exiting -Action \x7b",
   "        &\"\x7b\x7b.SelfPath\x7d\x7d\" env --cleanup;",
   "    \x7d",
   "",
   "    # perform cleanup on removal so a new initialization in current session works",
   "    $ExecutionContext.SessionState.Module.OnRemove += \x7b",
   "        $function:prompt = $originalPrompt",
   "        Unregister-Event -SubscriptionId $subscription.Id",
   "    \x7d",
   "\x7d | Import-Module -Global",
   ""]

/-- The constant `hook`, a Go raw string literal. -/
def hook : GoString := str ("\n".intercalate hookLines)

/-- Modelled from the spec: the type `ActivateConfig` is declared in another file of package
`shell`. The spec names two things a configuration supplies: the path of the tool binary
and the statically known environment content. -/
structure ActivateConfig where
  SelfPath : GoString
  EnvContent : GoString
  deriving DecidableEq

/-- Method `(sh pwsh) Activate(config ActivateConfig) (string, error)`: the returned pair,
with `Except.ok` for a `nil` error. -/
def pwsh.Activate (_config : ActivateConfig) : Except String GoString :=
  Except.ok hook

/-! ## `scope.go` -/

/-- Type `UseScope int`. -/
abbrev UseScope := Int

/-- Type `Location int`. -/
abbrev Location := Int

/-- Constant `Global UseScope = iota`. -/
abbrev Global : UseScope := 0

/-- Constant `Project`. -/
abbrev Project : UseScope := 1

/-- Constant `Session`. -/
abbrev Session : UseScope := 2

/-- Constant `OriginalLocation Location = iota`. -/
abbrev OriginalLocation : Location := 0

/-- Constant `GlobalLocation`. -/
abbrev GlobalLocation : Location := 1

/-- Constant `ShellLocation`. -/
abbrev ShellLocation : Location := 2

/-- Method `(s UseScope) String() string`. -/
def UseScope.String (s : UseScope) : GoString :=
  if s = Global then str "global"
  else if s = Project then str "project"
  else if s = Session then str "session"
  else str "unknown"

/-- Method `(s Location) String() string`. -/
def Location.String (s : Location) : GoString :=
  if s = GlobalLocation then str "global"
  else if s = ShellLocation then str "shell"
  else if s = OriginalLocation then str "original"
  else str "unknown"

/-! ## `checksum.go` -/

/-- Type `Checksum`: the fields `Value` and `Type` (the latter spelled `Type_`, the word
`Type` being reserved). -/
structure Checksum where
  Value : GoString
  Type_ : GoString
  deriving DecidableEq

/-- The four digest functions of the standard library that `Verify` calls, taken as given
functions from the file contents to the digest bytes: `sha256.Sum256`, `sha512.Sum512`,
`sha1.Sum` and `md5.Sum`. -/
structure Digests where
  Sum256 : GoString → GoString
  Sum512 : GoString → GoString
  sha1Sum : GoString → GoString
  md5Sum : GoString → GoString

/-- The digit table of package `encoding/hex`. -/
def hextable : GoString := str "0123456789abcdef"

/-- The call `hex.EncodeToString(hash)` of the standard library: for each byte the table
entry of its high half and the table entry of its low half. -/
def hexEncodeToString (src : GoString) : GoString :=
  src.flatMap (fun v => [hextable.getD (v.val / 16) 0, hextable.getD (v.val % 16) 0])

/-- The `if`/`else if` chain of `Verify` on `c.Type`: the digest to compare
(`Except.ok hash`), or the value returned at once by the branches `"none"` and `else`
(`Except.error`). -/
def Checksum.selectHash (d : Digests) (c : Checksum) (fileData : GoString) :
    Except Bool GoString :=
  if c.Type_ = str "sha256" then Except.ok (d.Sum256 fileData)
  else if c.Type_ = str "sha512" then Except.ok (d.Sum512 fileData)
  else if c.Type_ = str "sha1" then Except.ok (d.sha1Sum fileData)
  else if c.Type_ = str "md5" then Except.ok (d.md5Sum fileData)
  else if c.Type_ = str "none" then Except.error true
  else Except.error false

/-- Method `(c *Checksum) Verify(path string) bool`. The file system is the function
`readFile`, the result of `os.ReadFile(path)`: `none` when it returns an error, the file
contents otherwise. The warning printed in the branch `"none"` goes to the terminal and
has no part in the returned value. -/
def Checksum.Verify (readFile : GoString → Option GoString) (d : Digests) (c : Checksum)
    (path : GoString) : Bool :=
  match readFile path with
  | none => false
  | some fileData =>
    match Checksum.selectHash d c fileData with
    | Except.error result => result
    | Except.ok hash =>
      let checksum := hexEncodeToString hash
      decide (checksum = c.Value)

/-- Variable `NoneChecksum`. -/
def NoneChecksum : Checksum := { Value := str "", Type_ := str "none" }

/-! ## Reading a quoted literal -/

/-- Reading a text from left to right with the backtick as escape marker, a backtick
consuming the character after it: the position, counted from `i`, of the first single
quote that is not consumed by a backtick, if there is one. -/
def firstUnescapedQuote : GoString → Nat → Option Nat
  | [], _ => none
  | [c], i => if c = SINGLE_QUOTE then some i else none
  | c :: d :: r, i =>
    if c = BACKTICK then firstUnescapedQuote r (i + 2)
    else if c = SINGLE_QUOTE then some i
    else firstUnescapedQuote (d :: r) (i + 1)

/-- The text `value` writes the bytes of `digest` in hexadecimal: two characters for each
byte, the high half first, `digit` giving the character code of a half byte. -/
def writesHex (digit : Nat → Nat) : GoString → GoString → Bool
  | [], [] => true
  | hi :: lo :: rest, b :: digest =>
    hi.val == digit (b.val / 16) && lo.val == digit (b.val % 16)
      && writesHex digit rest digest
  | _, _ => false

/-- The precedence of the spec, in its words: `Session` overrides `Project` overrides
`Global`; `specOverrides a b` says that a binding at tier `a` overrides one at tier `b`. -/
def specOverrides (a b : UseScope) : Bool :=
  (decide (a = Session) && (decide (b = Project) || decide (b = Global)))
    || (decide (a = Project) && decide (b = Global))

/-! ## The loop, byte by byte -/

theorem step_graft (st : EscState) (b : Fin 256) :
    step st b = graft st (step { out := [], escape := false } b) := by
  unfold step
  simp only [apply_ite (graft st)]
  rfl

theorem step_eq (st : EscState) (b : Fin 256) :
    step st b = { out := st.out ++ emitted b, escape := escapes b || st.escape } := by
  rw [step_graft]
  rfl

theorem escapeLoop_eq (s : GoString) (st : EscState) :
    escapeLoop s st
      = { out := st.out ++ s.flatMap emitted, escape := s.any escapes || st.escape } := by
  induction s generalizing st with
  | nil => simp [escapeLoop]
  | cons b t ih =>
    have h : escapeLoop (b :: t) st = escapeLoop t (step st b) := rfl
    rw [h, ih, step_eq]
    simp only [List.flatMap_cons, List.any_cons, List.append_assoc, EscState.mk.injEq,
      true_and]
    cases escapes b <;> cases t.any escapes <;> simp

theorem rendered_eq (s : GoString) : rendered s = s.flatMap emitted := by
  simp [rendered, escapeLoop_eq]

theorem rendered_append (s t : GoString) : rendered (s ++ t) = rendered s ++ rendered t := by
  simp [rendered_eq]

theorem rendered_cons (b : Fin 256) (t : GoString) :
    rendered (b :: t) = emitted b ++ rendered t := by
  simp [rendered_eq]

theorem escapes_false_iff :
    ∀ b : Fin 256, escapes b = false ↔ ((0x2C ≤ b ∧ b ≤ 0x5A) ∨ b = 0x5F) := by
  decide!

theorem emitted_of_not_escapes : ∀ b : Fin 256, escapes b = false → emitted b = [b] := by
  decide!

theorem emitted_ne_nil : ∀ b : Fin 256, emitted b ≠ [] := by
  decide!

theorem emitted_all_printable :
    ∀ b : Fin 256, (emitted b).all (fun c => decide (0x20 ≤ c ∧ c ≠ 0x7F)) = true := by
  decide!

theorem emitted_printable (b : Fin 256) : ∀ c ∈ emitted b, 0x20 ≤ c ∧ c ≠ 0x7F := by
  have h := emitted_all_printable b
  simpa [List.all_eq_true] using h

theorem rendered_printable (s : GoString) : ∀ c ∈ rendered s, 0x20 ≤ c ∧ c ≠ 0x7F := by
  intro c hc
  rw [rendered_eq, List.mem_flatMap] at hc
  obtain ⟨b, _, hb⟩ := hc
  exact emitted_printable b c hb

theorem rendered_ne_nil (s : GoString) (hs : s ≠ []) : rendered s ≠ [] := by
  cases s with
  | nil => exact absurd rfl hs
  | cons b t =>
    rw [rendered_cons]
    intro h
    exact emitted_ne_nil b (List.append_eq_nil.mp h).1

theorem PowerShellEscape_nil : PowerShellEscape [] = str "''" := by
  decide

theorem PowerShellEscape_of_ne_nil (s : GoString) (hs : s ≠ []) :
    PowerShellEscape s
      = if s.any escapes then SINGLE_QUOTE :: (rendered s ++ [SINGLE_QUOTE]) else rendered s := by
  have h1 : str "'" = [SINGLE_QUOTE] := by decide
  simp only [PowerShellEscape, hs, if_false, h1]
  simp [rendered, escapeLoop_eq]

theorem rendered_of_all_literal (s : GoString) (h : s.any escapes = false) :
    rendered s = s := by
  induction s with
  | nil => rfl
  | cons b t ih =>
    simp only [List.any_cons, Bool.or_eq_false_iff] at h
    rw [rendered_cons, emitted_of_not_escapes b h.1, ih h.2]
    rfl

theorem any_escapes_iff (s : GoString) :
    s.any escapes = true ↔ ∃ b ∈ s, ¬ ((0x2C ≤ b ∧ b ≤ 0x5A) ∨ b = 0x5F) := by
  rw [List.any_eq_true]
  constructor
  · rintro ⟨b, hb, he⟩
    refine ⟨b, hb, fun hl => ?_⟩
    rw [(escapes_false_iff b).mpr hl] at he
    exact Bool.false_ne_true he
  · rintro ⟨b, hb, hl⟩
    refine ⟨b, hb, ?_⟩
    cases he : escapes b with
    | true => rfl
    | false => exact absurd ((escapes_false_iff b).mp he) hl

theorem any_escapes_false_iff (s : GoString) :
    s.any escapes = false ↔ ∀ b ∈ s, ((0x2C ≤ b ∧ b ≤ 0x5A) ∨ b = 0x5F) := by
  constructor
  · intro h b hb
    by_contra hl
    have := (any_escapes_iff s).mpr ⟨b, hb, hl⟩
    rw [h] at this
    exact Bool.false_ne_true this
  · intro h
    cases he : s.any escapes with
    | false => rfl
    | true =>
      obtain ⟨b, hb, hl⟩ := (any_escapes_iff s).mp he
      exact absurd (h b hb) hl

theorem getLast?_cons_concat {α : Type} (q : α) (x : List α) :
    (q :: (x ++ [q])).getLast? = some q := by
  have h : q :: (x ++ [q]) = (q :: x) ++ [q] := rfl
  rw [h, List.getLast?_append]
  simp

theorem PowerShellEscape_mid (pre : GoString) (b : Fin 256) (post : GoString)
    (h : escapes b = true) :
    PowerShellEscape (pre ++ b :: post)
      = SINGLE_QUOTE :: (rendered pre ++ emitted b ++ rendered post ++ [SINGLE_QUOTE]) := by
  have hne : pre ++ b :: post ≠ [] := by simp
  have hany : (pre ++ b :: post).any escapes = true := by simp [h]
  rw [PowerShellEscape_of_ne_nil _ hne, hany, if_pos rfl, rendered_append, rendered_cons]
  simp [List.append_assoc]

theorem emitted_control :
    ∀ b : Fin 256, (b ≤ 0x1F ∧ b ≠ 9 ∧ b ≠ 10 ∧ b ≠ 13) ∨ b = 0x7F →
      escapes b = true ∧
      emitted b = [0x5C, 0x78, (str "0123456789abcdef").getD (b.val / 16) 0,
        (str "0123456789abcdef").getD (b.val % 16) 0] := by
  decide!

/-! ### The pattern `'.*'` -/

theorem quoteClosed_iff (cs : GoString) :
    quoteClosed cs = true ↔ ∃ m b, cs = m ++ SINGLE_QUOTE :: b ∧ LF ∉ m := by
  induction cs with
  | nil => simp [quoteClosed]
  | cons c t ih =>
    unfold quoteClosed
    by_cases h1 : c = SINGLE_QUOTE
    · rw [if_pos h1]
      exact ⟨fun _ => ⟨[], t, by simp [h1], by simp⟩, fun _ => rfl⟩
    · rw [if_neg h1]
      by_cases h2 : c = LF
      · rw [if_pos h2]
        constructor
        · intro h
          exact absurd h Bool.false_ne_true
        · rintro ⟨m, b, hm, hlf⟩
          cases m with
          | nil =>
            simp only [List.nil_append, List.cons.injEq] at hm
            exact absurd hm.1 h1
          | cons d m2 =>
            simp only [List.cons_append, List.cons.injEq] at hm
            have hd : LF ∈ d :: m2 := by
              rw [← h2, hm.1]
              exact List.mem_cons_self d m2
            exact absurd hd hlf
      · rw [if_neg h2, ih]
        constructor
        · rintro ⟨m, b, hm, hlf⟩
          refine ⟨c :: m, b, by simp [hm], ?_⟩
          intro hmem
          rcases List.mem_cons.mp hmem with h | h
          · exact h2 h.symm
          · exact hlf h
        · rintro ⟨m, b, hm, hlf⟩
          cases m with
          | nil =>
            simp only [List.nil_append, List.cons.injEq] at hm
            exact absurd hm.1 h1
          | cons d m2 =>
            simp only [List.cons_append, List.cons.injEq] at hm
            exact ⟨m2, b, hm.2, fun hmem => hlf (List.mem_cons_of_mem d hmem)⟩

/-- The search agrees with the meaning of the pattern: a quote, then characters other than
line feed, then a quote, anywhere in the text. -/
theorem matchQuoted_iff (s : GoString) :
    matchQuoted s = true
      ↔ ∃ a m b, s = a ++ SINGLE_QUOTE :: (m ++ SINGLE_QUOTE :: b) ∧ LF ∉ m := by
  induction s with
  | nil => simp [matchQuoted]
  | cons c t ih =>
    unfold matchQuoted
    by_cases h1 : c = SINGLE_QUOTE
    · rw [if_pos h1, Bool.or_eq_true, quoteClosed_iff, ih]
      constructor
      · rintro (⟨m, b, hm, hlf⟩ | ⟨a, m, b, hm, hlf⟩)
        · exact ⟨[], m, b, by simp [h1, hm], hlf⟩
        · exact ⟨c :: a, m, b, by simp [hm], hlf⟩
      · rintro ⟨a, m, b, hm, hlf⟩
        cases a with
        | nil =>
          simp only [List.nil_append, List.cons.injEq] at hm
          exact Or.inl ⟨m, b, hm.2, hlf⟩
        | cons d a2 =>
          simp only [List.cons_append, List.cons.injEq] at hm
          exact Or.inr ⟨a2, m, b, hm.2, hlf⟩
    · rw [if_neg h1, ih]
      constructor
      · rintro ⟨a, m, b, hm, hlf⟩
        exact ⟨c :: a, m, b, by simp [hm], hlf⟩
      · rintro ⟨a, m, b, hm, hlf⟩
        cases a with
        | nil =>
          simp only [List.nil_append, List.cons.injEq] at hm
          exact absurd hm.1 h1
        | cons d a2 =>
          simp only [List.cons_append, List.cons.injEq] at hm
          exact ⟨a2, m, b, hm.2, hlf⟩

theorem matchQuoted_of_no_quote (s : GoString) (h : SINGLE_QUOTE ∉ s) :
    matchQuoted s = false := by
  cases hm : matchQuoted s with
  | false => rfl
  | true =>
    obtain ⟨a, m, b, hs, _⟩ := (matchQuoted_iff s).mp hm
    exact absurd (by simp [hs]) h

theorem matchQuoted_wrapped (x : GoString) (h : LF ∉ x) :
    matchQuoted (SINGLE_QUOTE :: (x ++ [SINGLE_QUOTE])) = true :=
  (matchQuoted_iff _).mpr ⟨[], x, [], rfl, h⟩

theorem rendered_no_LF (s : GoString) : LF ∉ rendered s := by
  intro h
  exact absurd (rendered_printable s LF h) (by decide)

/-- The value part of a set statement, as `pwsh.export` computes it. -/
theorem pwsh_export_eq (key value : GoString) :
    pwsh.export key value
      = str "$env:" ++ PowerShellEscape key ++ str "="
          ++ (if matchQuoted (PowerShellEscape value) then PowerShellEscape value
              else str "'" ++ PowerShellEscape value ++ str "'")
          ++ str ";" := by
  unfold pwsh.export pwsh.escape
  cases h : matchQuoted (PowerShellEscape value) <;> simp [h]

theorem matchQuoted_PowerShellEscape (v : GoString) :
    matchQuoted (PowerShellEscape v)
      = (decide (v = []) || v.any escapes) := by
  by_cases hv : v = []
  · subst hv
    decide
  · rw [PowerShellEscape_of_ne_nil v hv]
    cases he : v.any escapes with
    | true =>
      rw [if_pos rfl, matchQuoted_wrapped _ (rendered_no_LF v)]
      simp
    | false =>
      simp only [Bool.false_eq_true, if_false, hv, decide_False, Bool.or_false]
      rw [rendered_of_all_literal v he]
      apply matchQuoted_of_no_quote
      intro hq
      exact absurd ((any_escapes_false_iff v).mp he SINGLE_QUOTE hq) (by decide)

/-! ### The loop of `Export` -/

theorem exportLoop_eq (visit : List (GoString × Option GoString)) (out : GoString) :
    pwsh.exportLoop visit out
      = out ++ visit.flatMap (fun kv =>
          match kv.2 with
          | none => pwsh.unset kv.1
          | some value => pwsh.export kv.1 value) := by
  induction visit generalizing out with
  | nil => simp [pwsh.exportLoop]
  | cons kv t ih =>
    have h : pwsh.exportLoop (kv :: t) out
        = pwsh.exportLoop t (match kv.2 with
            | none => out ++ pwsh.unset kv.1
            | some value => out ++ pwsh.export kv.1 value) := rfl
    rw [h, ih]
    obtain ⟨k, v⟩ := kv
    cases v <;> simp [List.flatMap_cons]

/-! ### `Verify`, branch by branch -/

theorem Verify_of_read_error (readFile : GoString → Option GoString) (d : Digests)
    (c : Checksum) (path : GoString) (h : readFile path = none) :
    Checksum.Verify readFile d c path = false := by
  simp [Checksum.Verify, h]

theorem Verify_of_hash (readFile : GoString → Option GoString) (d : Digests)
    (c : Checksum) (path data hash : GoString) (h : readFile path = some data)
    (hh : Checksum.selectHash d c data = Except.ok hash) :
    Checksum.Verify readFile d c path = decide (hexEncodeToString hash = c.Value) := by
  simp [Checksum.Verify, h, hh]

theorem Verify_of_return (readFile : GoString → Option GoString) (d : Digests)
    (c : Checksum) (path data : GoString) (r : Bool) (h : readFile path = some data)
    (hh : Checksum.selectHash d c data = Except.error r) :
    Checksum.Verify readFile d c path = r := by
  simp [Checksum.Verify, h, hh]

theorem selectHash_eq (d : Digests) (value t data : GoString) :
    Checksum.selectHash d { Value := value, Type_ := t } data
      = if t = str "sha256" then Except.ok (d.Sum256 data)
        else if t = str "sha512" then Except.ok (d.Sum512 data)
        else if t = str "sha1" then Except.ok (d.sha1Sum data)
        else if t = str "md5" then Except.ok (d.md5Sum data)
        else if t = str "none" then Except.error true
        else Except.error false := rfl

theorem selectHash_algorithms (d : Digests) (value data : GoString) :
    ∀ th ∈ [(str "sha256", d.Sum256), (str "sha512", d.Sum512), (str "sha1", d.sha1Sum),
        (str "md5", d.md5Sum)],
      Checksum.selectHash d { Value := value, Type_ := th.1 } data = Except.ok (th.2 data) := by
  have n1 : str "sha512" ≠ str "sha256" := by decide
  have n2 : str "sha1" ≠ str "sha256" := by decide
  have n3 : str "sha1" ≠ str "sha512" := by decide
  have n4 : str "md5" ≠ str "sha256" := by decide
  have n5 : str "md5" ≠ str "sha512" := by decide
  have n6 : str "md5" ≠ str "sha1" := by decide
  intro th hth
  simp only [List.mem_cons, List.mem_singleton, List.not_mem_nil, or_false] at hth
  rw [selectHash_eq]
  rcases hth with h | h | h | h <;> subst h
  · rw [if_pos rfl]
  · rw [if_neg n1, if_pos rfl]
  · rw [if_neg n2, if_neg n3, if_pos rfl]
  · rw [if_neg n4, if_neg n5, if_neg n6, if_pos rfl]

theorem selectHash_none (d : Digests) (value data : GoString) :
    Checksum.selectHash d { Value := value, Type_ := str "none" } data = Except.error true := by
  have n1 : str "none" ≠ str "sha256" := by decide
  have n2 : str "none" ≠ str "sha512" := by decide
  have n3 : str "none" ≠ str "sha1" := by decide
  have n4 : str "none" ≠ str "md5" := by decide
  rw [selectHash_eq, if_neg n1, if_neg n2, if_neg n3, if_neg n4, if_pos rfl]

theorem selectHash_other (d : Digests) (value data t : GoString)
    (h1 : t ≠ str "sha256") (h2 : t ≠ str "sha512") (h3 : t ≠ str "sha1")
    (h4 : t ≠ str "md5") (h5 : t ≠ str "none") :
    Checksum.selectHash d { Value := value, Type_ := t } data = Except.error false := by
  rw [selectHash_eq, if_neg h1, if_neg h2, if_neg h3, if_neg h4, if_neg h5]

theorem hextable_lower :
    ∀ b : Fin 256,
      (hextable.getD (b.val / 16) 0).val
          = (if b.val / 16 < 10 then 0x30 + b.val / 16 else 0x61 + (b.val / 16 - 10))
      ∧ (hextable.getD (b.val % 16) 0).val
          = (if b.val % 16 < 10 then 0x30 + b.val % 16 else 0x61 + (b.val % 16 - 10)) := by
  decide!

theorem hexEncodeToString_cons (b : Fin 256) (t : GoString) :
    hexEncodeToString (b :: t)
      = hextable.getD (b.val / 16) 0 :: hextable.getD (b.val % 16) 0 :: hexEncodeToString t := by
  simp [hexEncodeToString, List.flatMap_cons]

theorem writesHex_lower_iff (value digest : GoString) :
    writesHex (fun n => if n < 10 then 0x30 + n else 0x61 + (n - 10)) value digest = true
      ↔ value = hexEncodeToString digest := by
  induction digest generalizing value with
  | nil =>
    cases value with
    | nil => simp [writesHex, hexEncodeToString]
    | cons x t =>
      cases t <;> simp [writesHex, hexEncodeToString]
  | cons b t ih =>
    rw [hexEncodeToString_cons]
    cases value with
    | nil => simp [writesHex]
    | cons hi r =>
      cases r with
      | nil => simp [writesHex]
      | cons lo rest =>
        obtain ⟨h1, h2⟩ := hextable_lower b
        simp only [writesHex, Bool.and_eq_true, beq_iff_eq, List.cons.injEq, ih rest]
        rw [← h1, ← h2, Fin.val_inj, Fin.val_inj]
        exact and_assoc

theorem writesHex_upper_iff (value digest : GoString)
    (h : writesHex (fun n => if n < 10 then 0x30 + n else 0x41 + (n - 10)) value digest = true) :
    hexEncodeToString digest = value
      ↔ ∀ b ∈ digest, b.val / 16 < 10 ∧ b.val % 16 < 10 := by
  induction digest generalizing value with
  | nil =>
    cases value with
    | nil => simp [hexEncodeToString]
    | cons x t => cases t <;> simp [writesHex] at h
  | cons b t ih =>
    rw [hexEncodeToString_cons]
    cases value with
    | nil => simp [writesHex] at h
    | cons hi r =>
      cases r with
      | nil => simp [writesHex] at h
      | cons lo rest =>
        simp only [writesHex, Bool.and_eq_true, beq_iff_eq] at h
        obtain ⟨⟨hhi, hlo⟩, hrest⟩ := h
        obtain ⟨h1, h2⟩ := hextable_lower b
        simp only [List.cons.injEq, ih rest hrest, List.mem_cons, forall_eq_or_imp]
        rw [← Fin.val_inj, ← Fin.val_inj, h1, h2, hhi, hlo]
        constructor
        · rintro ⟨e1, e2, e3⟩
          refine ⟨⟨?_, ?_⟩, e3⟩
          · by_contra hc
            rw [if_neg hc, if_neg hc] at e1
            omega
          · by_contra hc
            rw [if_neg hc, if_neg hc] at e2
            omega
        · rintro ⟨⟨e1, e2⟩, e3⟩
          exact ⟨by rw [if_pos e1, if_pos e1], by rw [if_pos e2, if_pos e2], e3⟩

theorem writesHex_length (digit : Nat → Nat) (value digest : GoString)
    (h : writesHex digit value digest = true) : value.length = 2 * digest.length := by
  induction digest generalizing value with
  | nil =>
    cases value with
    | nil => rfl
    | cons x t => cases t <;> simp [writesHex] at h
  | cons b t ih =>
    cases value with
    | nil => simp [writesHex] at h
    | cons hi r =>
      cases r with
      | nil => simp [writesHex] at h
      | cons lo rest =>
        simp only [writesHex, Bool.and_eq_true] at h
        have := ih rest h.2
        simp only [List.length_cons, this]
        omega

/-! ## Escaping: claims C1 to C5 -/

/-- C1 (fails on the code): `PowerShellEscape` is not injective, so no decoding function
reads every input back from its literal. The byte 0x01 and the four characters
backslash, `x`, `0`, `1` render as the same literal, and so do a tab byte and the two
characters backtick, `t`. -/
theorem PowerShellEscape_collision :
    PowerShellEscape [0x01] = PowerShellEscape (str "\\x01")
      ∧ ([0x01] : GoString) ≠ str "\\x01"
      ∧ PowerShellEscape [TAB] = PowerShellEscape (str "`t")
      ∧ ([TAB] : GoString) ≠ str "`t"
      ∧ ¬ ∃ D : GoString → GoString, ∀ s, D (PowerShellEscape s) = s := by
  refine ⟨by decide, by decide, by decide, by decide, ?_⟩
  rintro ⟨D, hD⟩
  have h1 := hD [TAB]
  have h2 := hD (str "`t")
  have h3 : PowerShellEscape [TAB] = PowerShellEscape (str "`t") := by decide
  rw [h3, h2] at h1
  exact absurd h1 (by decide)

/-- C2: for a non-empty input, the output of `PowerShellEscape` begins and ends with a
single quote exactly when the input has a byte outside the literal set (0x2C to 0x5A, and
0x5F); when every byte is in the literal set the output is the input itself; an input
containing a single quote is wrapped; and `it's "fine"` renders with the embedded quote
as backtick, quote inside the wrapping quotes. -/
theorem PowerShellEscape_wrapped_iff (s : GoString) (hs : s ≠ []) :
    (((PowerShellEscape s).head? = some SINGLE_QUOTE
        ∧ (PowerShellEscape s).getLast? = some SINGLE_QUOTE)
      ↔ ∃ b ∈ s, ¬ ((0x2C ≤ b ∧ b ≤ 0x5A) ∨ b = 0x5F))
    ∧ ((∀ b ∈ s, ((0x2C ≤ b ∧ b ≤ 0x5A) ∨ b = 0x5F)) → PowerShellEscape s = s)
    ∧ (SINGLE_QUOTE ∈ s →
        ∃ body, PowerShellEscape s = SINGLE_QUOTE :: (body ++ [SINGLE_QUOTE]))
    ∧ PowerShellEscape (str "it's \"fine\"") = str "'it`'s \"fine\"'" := by
  have hlit : (∀ b ∈ s, ((0x2C ≤ b ∧ b ≤ 0x5A) ∨ b = 0x5F)) → PowerShellEscape s = s := by
    intro h
    have h0 := (any_escapes_false_iff s).mpr h
    rw [PowerShellEscape_of_ne_nil s hs, h0]
    simpa using rendered_of_all_literal s h0
  have hwrap : (∃ b ∈ s, ¬ ((0x2C ≤ b ∧ b ≤ 0x5A) ∨ b = 0x5F)) →
      PowerShellEscape s = SINGLE_QUOTE :: (rendered s ++ [SINGLE_QUOTE]) := by
    intro h
    rw [PowerShellEscape_of_ne_nil s hs, (any_escapes_iff s).mpr h, if_pos rfl]
  refine ⟨⟨?_, ?_⟩, hlit, ?_, by decide⟩
  · rintro ⟨hh, _⟩
    by_contra hno
    have hall : ∀ b ∈ s, ((0x2C ≤ b ∧ b ≤ 0x5A) ∨ b = 0x5F) := by
      intro b hb
      by_contra hl
      exact hno ⟨b, hb, hl⟩
    rw [hlit hall] at hh
    cases s with
    | nil => exact hs rfl
    | cons c t =>
      have hc := hall c (List.mem_cons_self c t)
      simp only [List.head?_cons, Option.some.injEq] at hh
      rw [hh] at hc
      exact absurd hc (by decide)
  · intro h
    rw [hwrap h]
    exact ⟨rfl, getLast?_cons_concat SINGLE_QUOTE (rendered s)⟩
  · intro hq
    exact ⟨rendered s, hwrap ⟨SINGLE_QUOTE, hq, by decide⟩⟩

/-- C2, at the input `it's "fine"`. -/
theorem PowerShellEscape_wrapped_iff_witness :
    str "it's \"fine\"" ≠ [] ∧
    (∃ body, PowerShellEscape (str "it's \"fine\"") = SINGLE_QUOTE :: (body ++ [SINGLE_QUOTE])) :=
  ⟨by decide,
    (PowerShellEscape_wrapped_iff (str "it's \"fine\"") (by decide)).2.2.1 (by decide)⟩

/-- C3 as stated fails: the one-letter string `a` is non-empty and made of ASCII letters
only, and `PowerShellEscape` does not return it unchanged (it returns `'a'`). -/
theorem PowerShellEscape_lowercase_counterexample :
    str "a" ≠ []
      ∧ (∀ b ∈ str "a", (0x41 ≤ b ∧ b ≤ 0x5A) ∨ (0x61 ≤ b ∧ b ≤ 0x7A)
          ∨ (0x30 ≤ b ∧ b ≤ 0x39) ∨ b = 0x5F)
      ∧ PowerShellEscape (str "a") ≠ str "a"
      ∧ PowerShellEscape (str "a") = str "'a'" := by
  decide

/-- C3, amended: a non-empty string made only of ASCII upper-case letters, ASCII digits
and underscore is returned unchanged; a string made of ASCII letters, digits and
underscore that has a lower-case letter is returned between two single quotes, its bytes
unchanged. -/
theorem PowerShellEscape_alnum (s : GoString) (hs : s ≠ []) :
    ((∀ b ∈ s, (0x41 ≤ b ∧ b ≤ 0x5A) ∨ (0x30 ≤ b ∧ b ≤ 0x39) ∨ b = 0x5F) →
        PowerShellEscape s = s)
    ∧ ((∀ b ∈ s, (0x41 ≤ b ∧ b ≤ 0x5A) ∨ (0x61 ≤ b ∧ b ≤ 0x7A)
          ∨ (0x30 ≤ b ∧ b ≤ 0x39) ∨ b = 0x5F) →
        (∃ b ∈ s, 0x61 ≤ b ∧ b ≤ 0x7A) →
        PowerShellEscape s = SINGLE_QUOTE :: (s ++ [SINGLE_QUOTE])) := by
  have key : ∀ b : Fin 256, (0x41 ≤ b ∧ b ≤ 0x5A) ∨ (0x61 ≤ b ∧ b ≤ 0x7A)
      ∨ (0x30 ≤ b ∧ b ≤ 0x39) ∨ b = 0x5F → emitted b = [b] := by decide!
  have low : ∀ b : Fin 256, 0x61 ≤ b ∧ b ≤ 0x7A → escapes b = true := by decide!
  have up : ∀ b : Fin 256, (0x41 ≤ b ∧ b ≤ 0x5A) ∨ (0x30 ≤ b ∧ b ≤ 0x39) ∨ b = 0x5F →
      escapes b = false := by decide!
  constructor
  · intro h
    have h0 : s.any escapes = false := by
      rw [List.any_eq_false]
      intro b hb
      rw [up b (h b hb)]
      exact Bool.false_ne_true
    rw [PowerShellEscape_of_ne_nil s hs, h0]
    simpa using rendered_of_all_literal s h0
  · intro h hl
    obtain ⟨b, hb, hlow⟩ := hl
    have h1 : s.any escapes = true := List.any_eq_true.mpr ⟨b, hb, low b hlow⟩
    have h2 : ∀ t : GoString, (∀ b ∈ t, (0x41 ≤ b ∧ b ≤ 0x5A) ∨ (0x61 ≤ b ∧ b ≤ 0x7A)
        ∨ (0x30 ≤ b ∧ b ≤ 0x39) ∨ b = 0x5F) → rendered t = t := by
      intro t
      induction t with
      | nil => intro _; rfl
      | cons c u ih =>
        intro hu
        rw [rendered_cons, key c (hu c (List.mem_cons_self c u)),
          ih (fun b hb => hu b (List.mem_cons_of_mem c hb))]
        rfl
    rw [PowerShellEscape_of_ne_nil s hs, h1, if_pos rfl, h2 s h]

/-- C3 amended, at the inputs `A_9` and `aB`. -/
theorem PowerShellEscape_alnum_witness :
    PowerShellEscape (str "A_9") = str "A_9"
      ∧ PowerShellEscape (str "aB") = SINGLE_QUOTE :: (str "aB" ++ [SINGLE_QUOTE]) :=
  ⟨(PowerShellEscape_alnum (str "A_9") (by decide)).1 (by decide),
    (PowerShellEscape_alnum (str "aB") (by decide)).2 (by decide) (by decide)⟩

/-- C4: the output of `PowerShellEscape` has no byte in 0x00 to 0x1F and no byte 0x7F.
An input byte `b` in 0x00 to 0x1F other than tab, LF and CR, or `b` = 0x7F, standing
between `pre` and `post`, is rendered as the four characters backslash, `x` and the two
lower-case hexadecimal digits of `b`; tab, LF and CR are rendered as backtick followed by
`t`, `n` and `r`. -/
theorem PowerShellEscape_control_bytes :
    (∀ s : GoString, ∀ c ∈ PowerShellEscape s, ¬ c ≤ 0x1F ∧ c ≠ 0x7F)
    ∧ (∀ (pre : GoString) (b : Fin 256) (post : GoString),
        (b ≤ 0x1F ∧ b ≠ TAB ∧ b ≠ LF ∧ b ≠ CR) ∨ b = 0x7F →
        PowerShellEscape (pre ++ b :: post)
          = str "'" ++ rendered pre
              ++ [0x5C, 0x78, (str "0123456789abcdef").getD (b.val / 16) 0,
                   (str "0123456789abcdef").getD (b.val % 16) 0]
              ++ rendered post ++ str "'")
    ∧ (∀ pre post : GoString,
        PowerShellEscape (pre ++ TAB :: post)
            = str "'" ++ rendered pre ++ str "`t" ++ rendered post ++ str "'"
        ∧ PowerShellEscape (pre ++ LF :: post)
            = str "'" ++ rendered pre ++ str "`n" ++ rendered post ++ str "'"
        ∧ PowerShellEscape (pre ++ CR :: post)
            = str "'" ++ rendered pre ++ str "`r" ++ rendered post ++ str "'") := by
  have hq : str "'" = [SINGLE_QUOTE] := by decide
  refine ⟨?_, ?_, ?_⟩
  · intro s c hc
    have hgoal : ∀ c : Fin 256, 0x20 ≤ c ∧ c ≠ 0x7F → ¬ c ≤ 0x1F ∧ c ≠ 0x7F := by decide!
    apply hgoal
    by_cases hs : s = []
    · subst hs
      have h2 : ∀ c ∈ PowerShellEscape [], 0x20 ≤ c ∧ c ≠ 0x7F := by decide
      exact h2 c hc
    · rw [PowerShellEscape_of_ne_nil s hs] at hc
      split_ifs at hc
      · simp only [List.mem_cons, List.mem_append, List.not_mem_nil, or_false] at hc
        rcases hc with h | h | h
        · rw [h]; decide
        · exact rendered_printable s c h
        · rw [h]; decide
      · exact rendered_printable s c hc
  · intro pre b post hb
    obtain ⟨he, hem⟩ := emitted_control b hb
    rw [PowerShellEscape_mid pre b post he, hem, hq]
    simp
  · intro pre post
    have ht : escapes TAB = true ∧ emitted TAB = str "`t" := by decide
    have hn : escapes LF = true ∧ emitted LF = str "`n" := by decide
    have hr : escapes CR = true ∧ emitted CR = str "`r" := by decide
    rw [PowerShellEscape_mid pre TAB post ht.1, PowerShellEscape_mid pre LF post hn.1,
      PowerShellEscape_mid pre CR post hr.1, ht.2, hn.2, hr.2, hq]
    simp

/-- C4, at the input byte 0x1B between `A` and `B`. -/
theorem PowerShellEscape_control_bytes_witness :
    PowerShellEscape (str "A" ++ 0x1B :: str "B") = str "'A\\x1bB'" := by
  have h := PowerShellEscape_control_bytes.2.1 (str "A") 0x1B (str "B") (by decide)
  rw [h]
  decide

/-- C5: `PowerShellEscape` of the empty string is the two characters `''`; no non-empty
input renders as `''`; and the result is never the empty string. -/
theorem PowerShellEscape_empty :
    PowerShellEscape [] = str "''"
    ∧ (∀ s : GoString, s ≠ [] → PowerShellEscape s ≠ str "''")
    ∧ (∀ s : GoString, PowerShellEscape s ≠ []) := by
  refine ⟨by decide, ?_, ?_⟩
  · intro s hs
    rw [PowerShellEscape_of_ne_nil s hs]
    cases he : s.any escapes with
    | true =>
      rw [if_pos rfl]
      intro h
      have hlen := congrArg List.length h
      have hr : (rendered s).length ≠ 0 := fun h0 =>
        rendered_ne_nil s hs (List.length_eq_zero.mp h0)
      have h2 : (str "''").length = 2 := by decide
      rw [h2] at hlen
      simp only [List.length_cons, List.length_append, List.length_nil] at hlen
      omega
    | false =>
      simp only [Bool.false_eq_true, if_false]
      rw [rendered_of_all_literal s he]
      intro h
      have hall := (any_escapes_false_iff s).mp he
      have hmem : SINGLE_QUOTE ∈ s := by
        rw [h]
        decide
      exact absurd (hall SINGLE_QUOTE hmem) (by decide)
  · intro s
    by_cases hs : s = []
    · subst hs
      decide
    · rw [PowerShellEscape_of_ne_nil s hs]
      split_ifs
      · exact List.cons_ne_nil _ _
      · exact rendered_ne_nil s hs

/-- C5, at the one-byte input consisting of a single quote. -/
theorem PowerShellEscape_empty_witness :
    PowerShellEscape [SINGLE_QUOTE] ≠ str "''" :=
  PowerShellEscape_empty.2.1 [SINGLE_QUOTE] (by decide)

/-! ## Rendering statements: claims C6 to C8 -/

/-- C6: every value `pwsh.Export` can return for a mutation set `e` is the concatenation,
along an enumeration of the entries of `e` that visits each entry exactly once, of
`$env:` + escaped name + `=` + value literal + `;` for an entry with a value and of
`Remove-Item -Path 'env:/` + escaped name + `';` for an entry without one, and every such
concatenation can be returned; some value is always returned; the empty set renders the
empty string. -/
theorem pwsh_Export_statements :
    (∀ (e : Vars) (out : GoString), out ∈ pwsh.Export e ↔
      ∃ visit : List (GoString × Option GoString), visit.Perm e ∧
        out = visit.flatMap (fun kv =>
          match kv.2 with
          | some value =>
            str "$env:" ++ PowerShellEscape kv.1 ++ str "="
              ++ (if matchQuoted (PowerShellEscape value) then PowerShellEscape value
                  else str "'" ++ PowerShellEscape value ++ str "'")
              ++ str ";"
          | none => str "Remove-Item -Path 'env:/" ++ PowerShellEscape kv.1 ++ str "';"))
    ∧ (∀ e : Vars, pwsh.Export e ≠ [])
    ∧ pwsh.Export [] = [[]] := by
  have hstmt : (fun kv : GoString × Option GoString =>
        match kv.2 with
        | none => pwsh.unset kv.1
        | some value => pwsh.export kv.1 value)
      = (fun kv : GoString × Option GoString =>
          match kv.2 with
          | some value =>
            str "$env:" ++ PowerShellEscape kv.1 ++ str "="
              ++ (if matchQuoted (PowerShellEscape value) then PowerShellEscape value
                  else str "'" ++ PowerShellEscape value ++ str "'")
              ++ str ";"
          | none => str "Remove-Item -Path 'env:/" ++ PowerShellEscape kv.1 ++ str "';") := by
    funext kv
    obtain ⟨k, v⟩ := kv
    cases v with
    | none => rfl
    | some value => exact pwsh_export_eq k value
  refine ⟨?_, ?_, by decide⟩
  · intro e out
    unfold pwsh.Export
    rw [List.mem_map]
    constructor
    · rintro ⟨visit, hv, rfl⟩
      refine ⟨visit, List.mem_permutations'.mp hv, ?_⟩
      rw [exportLoop_eq, hstmt]
      rfl
    · rintro ⟨visit, hv, rfl⟩
      refine ⟨visit, List.mem_permutations'.mpr hv, ?_⟩
      rw [exportLoop_eq, hstmt]
      rfl
  · intro e h
    unfold pwsh.Export at h
    have hmem : e ∈ List.permutations' e := List.mem_permutations'.mpr (List.Perm.refl e)
    rw [List.map_eq_nil_iff] at h
    rw [h] at hmem
    exact absurd hmem (List.not_mem_nil e)

/-- C7 as stated fails: for the set built by inserting `PATH` and then `OLD_VAR`,
`pwsh.Export` can return the unset statement first, which is not the string of the claim;
so two calls on this set can return different strings. -/
theorem pwsh_Export_order_counterexample :
    str "Remove-Item -Path 'env:/OLD_VAR';$env:PATH='/opt/tool/bin:$PATH_PLACEHOLDER';"
        ∈ pwsh.Export (Vars.set
            (Vars.set [] (str "PATH") (some (str "/opt/tool/bin:$PATH_PLACEHOLDER")))
            (str "OLD_VAR") none)
      ∧ str "$env:PATH='/opt/tool/bin:$PATH_PLACEHOLDER';Remove-Item -Path 'env:/OLD_VAR';"
        ∈ pwsh.Export (Vars.set
            (Vars.set [] (str "PATH") (some (str "/opt/tool/bin:$PATH_PLACEHOLDER")))
            (str "OLD_VAR") none)
      ∧ str "Remove-Item -Path 'env:/OLD_VAR';$env:PATH='/opt/tool/bin:$PATH_PLACEHOLDER';"
        ≠ str "$env:PATH='/opt/tool/bin:$PATH_PLACEHOLDER';Remove-Item -Path 'env:/OLD_VAR';" := by
  decide!

/-- C7, amended: for the set built by inserting `PATH` and then `OLD_VAR`, `pwsh.Export`
returns the set statement followed by the unset statement or the unset statement followed
by the set statement, and nothing else; for every mutation set, two calls return the
statements of one and the same collection of entries, each once, in orders that may
differ; and on a set with at most one entry the result is unique. -/
theorem pwsh_Export_order :
    (∀ out : GoString,
      out ∈ pwsh.Export (Vars.set
            (Vars.set [] (str "PATH") (some (str "/opt/tool/bin:$PATH_PLACEHOLDER")))
            (str "OLD_VAR") none)
        ↔ (out = str "$env:PATH='/opt/tool/bin:$PATH_PLACEHOLDER';Remove-Item -Path 'env:/OLD_VAR';"
            ∨ out = str "Remove-Item -Path 'env:/OLD_VAR';$env:PATH='/opt/tool/bin:$PATH_PLACEHOLDER';"))
    ∧ (∀ (e : Vars) (out1 out2 : GoString), out1 ∈ pwsh.Export e → out2 ∈ pwsh.Export e →
        ∃ visit1 visit2 : List (GoString × Option GoString),
          visit1.Perm e ∧ visit2.Perm e ∧ visit1.Perm visit2
          ∧ out1 = visit1.flatMap (fun kv =>
              match kv.2 with
              | none => pwsh.unset kv.1
              | some value => pwsh.export kv.1 value)
          ∧ out2 = visit2.flatMap (fun kv =>
              match kv.2 with
              | none => pwsh.unset kv.1
              | some value => pwsh.export kv.1 value))
    ∧ (∀ (e : Vars) (out1 out2 : GoString), e.length ≤ 1 →
        out1 ∈ pwsh.Export e → out2 ∈ pwsh.Export e → out1 = out2) := by
  have hmem : ∀ (e : Vars) (out : GoString), out ∈ pwsh.Export e →
      ∃ visit : List (GoString × Option GoString), visit.Perm e ∧
        out = visit.flatMap (fun kv =>
          match kv.2 with
          | none => pwsh.unset kv.1
          | some value => pwsh.export kv.1 value) := by
    intro e out h
    unfold pwsh.Export at h
    obtain ⟨visit, hv, rfl⟩ := List.mem_map.mp h
    exact ⟨visit, List.mem_permutations'.mp hv, by rw [exportLoop_eq]; rfl⟩
  refine ⟨?_, ?_, ?_⟩
  · intro out
    have h : pwsh.Export (Vars.set
            (Vars.set [] (str "PATH") (some (str "/opt/tool/bin:$PATH_PLACEHOLDER")))
            (str "OLD_VAR") none)
        = [str "$env:PATH='/opt/tool/bin:$PATH_PLACEHOLDER';Remove-Item -Path 'env:/OLD_VAR';",
           str "Remove-Item -Path 'env:/OLD_VAR';$env:PATH='/opt/tool/bin:$PATH_PLACEHOLDER';"] := by
      decide!
    rw [h]
    simp
  · intro e out1 out2 h1 h2
    obtain ⟨v1, hv1, ho1⟩ := hmem e out1 h1
    obtain ⟨v2, hv2, ho2⟩ := hmem e out2 h2
    exact ⟨v1, v2, hv1, hv2, hv1.trans hv2.symm, ho1, ho2⟩
  · intro e out1 out2 hlen h1 h2
    obtain ⟨v1, hv1, ho1⟩ := hmem e out1 h1
    obtain ⟨v2, hv2, ho2⟩ := hmem e out2 h2
    have hv : v1 = v2 := by
      have hp : v1.Perm v2 := hv1.trans hv2.symm
      cases e with
      | nil => rw [List.perm_nil.mp hv1, List.perm_nil.mp hv2]
      | cons a t =>
        cases t with
        | nil => rw [List.perm_singleton.mp hv1, List.perm_singleton.mp hv2]
        | cons b u => simp at hlen
    rw [ho1, ho2, hv]

/-- C7 amended, at the set with the single entry `OLD_VAR` = absent. -/
theorem pwsh_Export_order_witness :
    str "Remove-Item -Path 'env:/OLD_VAR';" = str "Remove-Item -Path 'env:/OLD_VAR';" :=
  pwsh_Export_order.2.2 [(str "OLD_VAR", none)] _ _ (by decide) (by decide) (by decide)

/-- C8: the value of a set statement is quoted exactly once. When `v` is empty or has a
byte outside the literal set, the literal `PowerShellEscape v` is already enclosed in
single quotes, the check `'.*'` succeeds on it (bytes from 0x80 up included) and
`pwsh.export` uses it as it is; otherwise `pwsh.export` uses `'` + `v` + `'`. In both cases
the value part begins and ends with a single quote. -/
theorem pwsh_export_quoted_once (k v : GoString) :
    ((v = [] ∨ ∃ b ∈ v, ¬ ((0x2C ≤ b ∧ b ≤ 0x5A) ∨ b = 0x5F)) →
        matchQuoted (PowerShellEscape v) = true
        ∧ (∃ body, PowerShellEscape v = SINGLE_QUOTE :: (body ++ [SINGLE_QUOTE]))
        ∧ pwsh.export k v
            = str "$env:" ++ PowerShellEscape k ++ str "=" ++ PowerShellEscape v ++ str ";")
    ∧ ((v ≠ [] ∧ ∀ b ∈ v, ((0x2C ≤ b ∧ b ≤ 0x5A) ∨ b = 0x5F)) →
        pwsh.export k v
            = str "$env:" ++ PowerShellEscape k ++ str "=" ++ (str "'" ++ v ++ str "'")
                ++ str ";")
    ∧ (∃ body, pwsh.export k v
            = str "$env:" ++ PowerShellEscape k ++ str "="
                ++ SINGLE_QUOTE :: (body ++ [SINGLE_QUOTE]) ++ str ";") := by
  have hq : str "'" = [SINGLE_QUOTE] := by decide
  have hwrapped : (v = [] ∨ ∃ b ∈ v, ¬ ((0x2C ≤ b ∧ b ≤ 0x5A) ∨ b = 0x5F)) →
      matchQuoted (PowerShellEscape v) = true
      ∧ (∃ body, PowerShellEscape v = SINGLE_QUOTE :: (body ++ [SINGLE_QUOTE])) := by
    intro h
    rw [matchQuoted_PowerShellEscape]
    rcases h with h | h
    · subst h
      exact ⟨by decide, [], by decide⟩
    · have hany := (any_escapes_iff v).mpr h
      have hne : v ≠ [] := by
        rintro rfl
        simp at hany
      refine ⟨by simp [hany], rendered v, ?_⟩
      rw [PowerShellEscape_of_ne_nil v hne, hany, if_pos rfl]
  have hbare : (v ≠ [] ∧ ∀ b ∈ v, ((0x2C ≤ b ∧ b ≤ 0x5A) ∨ b = 0x5F)) →
      matchQuoted (PowerShellEscape v) = false ∧ PowerShellEscape v = v := by
    rintro ⟨hne, hall⟩
    have hany := (any_escapes_false_iff v).mpr hall
    rw [matchQuoted_PowerShellEscape, hany, PowerShellEscape_of_ne_nil v hne, hany]
    refine ⟨by simp [hne], ?_⟩
    simpa using rendered_of_all_literal v hany
  refine ⟨?_, ?_, ?_⟩
  · intro h
    obtain ⟨hm, hb⟩ := hwrapped h
    refine ⟨hm, hb, ?_⟩
    rw [pwsh_export_eq, hm, if_pos rfl]
  · intro h
    obtain ⟨hm, hv⟩ := hbare h
    rw [pwsh_export_eq, hm, hv]
    simp
  · by_cases h : v = [] ∨ ∃ b ∈ v, ¬ ((0x2C ≤ b ∧ b ≤ 0x5A) ∨ b = 0x5F)
    · obtain ⟨hm, body, hb⟩ := hwrapped h
      refine ⟨body, ?_⟩
      rw [pwsh_export_eq, hm, if_pos rfl, hb]
    · have h2 : v ≠ [] ∧ ∀ b ∈ v, ((0x2C ≤ b ∧ b ≤ 0x5A) ∨ b = 0x5F) := by
        constructor
        · intro hv
          exact h (Or.inl hv)
        · intro b hb
          by_contra hl
          exact h (Or.inr ⟨b, hb, hl⟩)
      obtain ⟨hm, hv⟩ := hbare h2
      refine ⟨v, ?_⟩
      rw [pwsh_export_eq, hm, hv, hq]
      simp

/-- C8, at a value with the bytes 0xC3 0xA9 (already wrapped) and at the value `V1` (bare). -/
theorem pwsh_export_quoted_once_witness :
    (matchQuoted (PowerShellEscape [0xC3, 0xA9]) = true
        ∧ (∃ body, PowerShellEscape [0xC3, 0xA9] = SINGLE_QUOTE :: (body ++ [SINGLE_QUOTE]))
        ∧ pwsh.export (str "X") [0xC3, 0xA9]
            = str "$env:" ++ PowerShellEscape (str "X") ++ str "="
                ++ PowerShellEscape [0xC3, 0xA9] ++ str ";")
    ∧ pwsh.export (str "X") (str "V1")
        = str "$env:" ++ PowerShellEscape (str "X") ++ str "="
            ++ (str "'" ++ str "V1" ++ str "'") ++ str ";" :=
  ⟨(pwsh_export_quoted_once (str "X") [0xC3, 0xA9]).1 (by decide),
    (pwsh_export_quoted_once (str "X") (str "V1")).2.1 (by decide)⟩

/-! ## Activation: claim C9 -/

/-- C9 as stated fails: two configurations with different tool paths yield the same
script, and the script does not contain the tool path `/usr/local/bin/vfox` of the first
one, nor its environment content `$env:FOO='bar';`. -/
theorem pwsh_Activate_counterexample :
    (ActivateConfig.mk (str "/usr/local/bin/vfox") (str "$env:FOO='bar';")).SelfPath
        ≠ (ActivateConfig.mk (str "/opt/vfox/vfox") (str "$env:FOO='bar';")).SelfPath
      ∧ pwsh.Activate (ActivateConfig.mk (str "/usr/local/bin/vfox") (str "$env:FOO='bar';"))
        = pwsh.Activate (ActivateConfig.mk (str "/opt/vfox/vfox") (str "$env:FOO='bar';"))
      ∧ (∀ script,
          pwsh.Activate (ActivateConfig.mk (str "/usr/local/bin/vfox") (str "$env:FOO='bar';"))
            = Except.ok script →
          ¬ (str "/usr/local/bin/vfox" <:+: script) ∧ ¬ (str "$env:FOO='bar';" <:+: script)) := by
  refine ⟨by decide, rfl, ?_⟩
  intro script h
  have hs : script = hook := by
    simp only [pwsh.Activate, Except.ok.injEq] at h
    exact h.symm
  subst hs
  decide!

/-- C9, amended: for every configuration `pwsh.Activate` returns, without error, the same
fixed hook template. The template marks the place of the tool path with the placeholder
`{{.SelfPath}}`, as the command of the cleanup at start, of the per-prompt callback and of
the cleanup on exit, and the place of the environment content with the placeholder
`{{.EnvContent}}`; the values of the configuration are not inserted. -/
theorem pwsh_Activate_template :
    (∀ config : ActivateConfig, pwsh.Activate config = Except.ok hook)
      ∧ (∀ config1 config2 : ActivateConfig, pwsh.Activate config1 = pwsh.Activate config2)
      ∧ str "& '\x7b\x7b.SelfPath\x7d\x7d' env --cleanup 2>$null | Out-Null;" <:+: hook
      ∧ str "$export = &\"\x7b\x7b.SelfPath\x7d\x7d\" env -s pwsh;" <:+: hook
      ∧ str "&\"\x7b\x7b.SelfPath\x7d\x7d\" env --cleanup;" <:+: hook
      ∧ str "\n\x7b\x7b.EnvContent\x7d\x7d\n" <:+: hook := by
  refine ⟨fun _ => rfl, fun _ _ => rfl, ?_, ?_, ?_, ?_⟩ <;> decide!

/-! ## Scope and location: claim C10 -/

/-- C10: `UseScope.String` returns `global` for 0 (`Global`), `project` for 1 (`Project`),
`session` for 2 (`Session`) and `unknown` for every other integer; `Location.String`
returns `original` for 0 (`OriginalLocation`), `global` for 1 (`GlobalLocation`), `shell`
for 2 (`ShellLocation`) and `unknown` for every other integer; both return one of these
texts on every integer. -/
theorem String_total :
    (Global = 0 ∧ Project = 1 ∧ Session = 2
      ∧ UseScope.String 0 = str "global"
      ∧ UseScope.String 1 = str "project"
      ∧ UseScope.String 2 = str "session"
      ∧ (∀ s : UseScope, s ≠ 0 → s ≠ 1 → s ≠ 2 → UseScope.String s = str "unknown")
      ∧ (∀ s : UseScope,
          UseScope.String s ∈ [str "global", str "project", str "session", str "unknown"]))
    ∧ (OriginalLocation = 0 ∧ GlobalLocation = 1 ∧ ShellLocation = 2
      ∧ Location.String 0 = str "original"
      ∧ Location.String 1 = str "global"
      ∧ Location.String 2 = str "shell"
      ∧ (∀ s : Location, s ≠ 0 → s ≠ 1 → s ≠ 2 → Location.String s = str "unknown")
      ∧ (∀ s : Location,
          Location.String s ∈ [str "original", str "global", str "shell", str "unknown"])) := by
  refine ⟨⟨rfl, rfl, rfl, by decide, by decide, by decide, ?_, ?_⟩,
    ⟨rfl, rfl, rfl, by decide, by decide, by decide, ?_, ?_⟩⟩
  · intro s h0 h1 h2
    unfold UseScope.String
    rw [if_neg h0, if_neg h1, if_neg h2]
  · intro s
    unfold UseScope.String
    split_ifs <;> simp
  · intro s h0 h1 h2
    unfold Location.String
    rw [if_neg h1, if_neg h2, if_neg h0]
  · intro s
    unfold Location.String
    split_ifs <;> simp

/-- C10, at the values -1 and 3. -/
theorem String_total_witness :
    UseScope.String (-1) = str "unknown" ∧ Location.String 3 = str "unknown" :=
  ⟨String_total.1.2.2.2.2.2.2.1 (-1) (by decide) (by decide) (by decide),
    String_total.2.2.2.2.2.2.2.1 3 (by decide) (by decide) (by decide)⟩

/-! ## Checksums: claims C11, C12 and C16 -/

/-- C11 as stated fails: where no file can be read, `Verify` with type `none` returns
false, whatever the digest functions are; so it is not true on every path. -/
theorem Verify_none_counterexample :
    (∀ d : Digests,
        Checksum.Verify (fun _ => none) d NoneChecksum (str "/no/such/file") = false)
      ∧ ¬ (∀ (readFile : GoString → Option GoString) (d : Digests) (path value : GoString),
            Checksum.Verify readFile d { Value := value, Type_ := str "none" } path = true) := by
  refine ⟨fun d => Verify_of_read_error _ d _ _ rfl, ?_⟩
  intro h
  have h1 := h (fun _ => none) ⟨id, id, id, id⟩ [] []
  rw [Verify_of_read_error _ _ _ _ rfl] at h1
  exact Bool.false_ne_true h1

/-- C11, amended: for every path at which the file can be read and every expected digest
value, `Verify` with type `none` returns true, and so does `NoneChecksum.Verify`; at a path
where the file cannot be read both return false. -/
theorem Verify_none (readFile : GoString → Option GoString) (d : Digests)
    (path value : GoString) :
    ((∃ data, readFile path = some data) →
        Checksum.Verify readFile d { Value := value, Type_ := str "none" } path = true
        ∧ Checksum.Verify readFile d NoneChecksum path = true)
    ∧ (readFile path = none →
        Checksum.Verify readFile d { Value := value, Type_ := str "none" } path = false
        ∧ Checksum.Verify readFile d NoneChecksum path = false) := by
  constructor
  · rintro ⟨data, hdata⟩
    exact ⟨Verify_of_return readFile d _ path data true hdata (selectHash_none d value data),
      Verify_of_return readFile d _ path data true hdata (selectHash_none d (str "") data)⟩
  · intro h
    exact ⟨Verify_of_read_error readFile d _ path h, Verify_of_read_error readFile d _ path h⟩

/-- C11 amended, at a file system where every path holds the text `abc`, with the
expected digest `00`. -/
theorem Verify_none_witness :
    Checksum.Verify (fun _ => some (str "abc")) ⟨id, id, id, id⟩
        { Value := str "00", Type_ := str "none" } (str "/tmp/sdk.zip") = true
      ∧ Checksum.Verify (fun _ => some (str "abc")) ⟨id, id, id, id⟩ NoneChecksum
        (str "/tmp/sdk.zip") = true :=
  (Verify_none (fun _ => some (str "abc")) ⟨id, id, id, id⟩ (str "/tmp/sdk.zip")
    (str "00")).1 ⟨str "abc", rfl⟩

/-- C12: for each of the types `sha256`, `sha512`, `sha1`, `md5`, with the digest function
it selects, `Verify` returns true exactly when the file can be read and `Value` writes the
digest of the contents in lower-case hexadecimal: two characters per byte, high half
first, the half bytes 0 to 9 as the characters `0` to `9` (from code 0x30) and 10 to 15 as
`a` to `f` (from code 0x61). It returns false when the file cannot be read and on every
other `Value`; a `Value` that writes the digest with `A` to `F` (from code 0x41) is
rejected exactly when it differs from the lower-case writing, that is when some half byte
of the digest is 10 or more; and the lower-case writing with whitespace, or any other
text, before or after it is rejected. -/
theorem Verify_exact (readFile : GoString → Option GoString) (d : Digests) (path : GoString) :
    ∀ th ∈ [(str "sha256", d.Sum256), (str "sha512", d.Sum512), (str "sha1", d.sha1Sum),
        (str "md5", d.md5Sum)],
      (∀ value : GoString,
        Checksum.Verify readFile d { Value := value, Type_ := th.1 } path = true
          ↔ ∃ data, readFile path = some data
              ∧ writesHex (fun n => if n < 10 then 0x30 + n else 0x61 + (n - 10))
                  value (th.2 data) = true)
      ∧ (∀ value : GoString, readFile path = none →
          Checksum.Verify readFile d { Value := value, Type_ := th.1 } path = false)
      ∧ (∀ data value : GoString, readFile path = some data →
          writesHex (fun n => if n < 10 then 0x30 + n else 0x61 + (n - 10))
            value (th.2 data) = false →
          Checksum.Verify readFile d { Value := value, Type_ := th.1 } path = false)
      ∧ (∀ data value : GoString, readFile path = some data →
          writesHex (fun n => if n < 10 then 0x30 + n else 0x41 + (n - 10))
            value (th.2 data) = true →
          (Checksum.Verify readFile d { Value := value, Type_ := th.1 } path = false
            ↔ ∃ b ∈ th.2 data, 10 ≤ b.val / 16 ∨ 10 ≤ b.val % 16))
      ∧ (∀ data value before after : GoString, readFile path = some data →
          writesHex (fun n => if n < 10 then 0x30 + n else 0x61 + (n - 10))
            value (th.2 data) = true →
          before ++ after ≠ [] →
          Checksum.Verify readFile d
            { Value := before ++ value ++ after, Type_ := th.1 } path = false) := by
  intro th hth
  have hv : ∀ value data : GoString, readFile path = some data →
      Checksum.Verify readFile d { Value := value, Type_ := th.1 } path
        = decide (hexEncodeToString (th.2 data) = value) := by
    intro value data hdata
    exact Verify_of_hash readFile d _ path data (th.2 data) hdata
      (selectHash_algorithms d value data th hth)
  refine ⟨?_, ?_, ?_, ?_, ?_⟩
  · intro value
    constructor
    · intro h
      cases hr : readFile path with
      | none =>
        rw [Verify_of_read_error readFile d _ path hr] at h
        exact absurd h Bool.false_ne_true
      | some data =>
        rw [hv value data hr] at h
        exact ⟨data, rfl, (writesHex_lower_iff value (th.2 data)).mpr (of_decide_eq_true h).symm⟩
    · rintro ⟨data, hdata, hval⟩
      rw [hv value data hdata]
      exact decide_eq_true ((writesHex_lower_iff value (th.2 data)).mp hval).symm
  · intro value h
    exact Verify_of_read_error readFile d _ path h
  · intro data value hdata hw
    rw [hv value data hdata]
    apply decide_eq_false
    intro h
    rw [(writesHex_lower_iff value (th.2 data)).mpr h.symm] at hw
    exact Bool.noConfusion hw
  · intro data value hdata hw
    rw [hv value data hdata, decide_eq_false_iff_not, writesHex_upper_iff value (th.2 data) hw]
    constructor
    · intro h
      by_contra hno
      apply h
      intro b hb
      by_contra hc
      exact hno ⟨b, hb, by omega⟩
    · rintro ⟨b, hb, hc⟩ h
      have := h b hb
      omega
  · intro data value before after hdata hw hne
    rw [hv _ data hdata]
    apply decide_eq_false
    intro h
    rw [← (writesHex_lower_iff value (th.2 data)).mp hw] at h
    have hlen := congrArg List.length h
    simp only [List.length_append] at hlen
    have h0 : (before ++ after).length ≠ 0 := fun h0 => hne (List.length_eq_zero.mp h0)
    rw [List.length_append] at h0
    omega

/-- C12, at a file with the text `abc` whose `md5` digest is taken to be the two bytes
0xAB 0x01: the expected value `ab01` is accepted, `AB01` and `ab01` followed by a blank
are rejected. -/
theorem Verify_exact_witness :
    Checksum.Verify (fun _ => some (str "abc")) ⟨id, id, id, fun _ => [0xAB, 0x01]⟩
        { Value := str "ab01", Type_ := str "md5" } (str "/tmp/sdk.zip") = true
      ∧ Checksum.Verify (fun _ => some (str "abc")) ⟨id, id, id, fun _ => [0xAB, 0x01]⟩
        { Value := str "AB01", Type_ := str "md5" } (str "/tmp/sdk.zip") = false
      ∧ Checksum.Verify (fun _ => some (str "abc")) ⟨id, id, id, fun _ => [0xAB, 0x01]⟩
        { Value := str "ab01 ", Type_ := str "md5" } (str "/tmp/sdk.zip") = false :=
  ⟨((Verify_exact (fun _ => some (str "abc")) ⟨id, id, id, fun _ => [0xAB, 0x01]⟩
        (str "/tmp/sdk.zip") (str "md5", fun _ => [0xAB, 0x01]) (by simp)).1
        (str "ab01")).mpr ⟨str "abc", rfl, by decide⟩,
    ((Verify_exact (fun _ => some (str "abc")) ⟨id, id, id, fun _ => [0xAB, 0x01]⟩
        (str "/tmp/sdk.zip") (str "md5", fun _ => [0xAB, 0x01]) (by simp)).2.2.2.1
        (str "abc") (str "AB01") rfl (by decide)).mpr ⟨0xAB, by simp, by decide⟩,
    (Verify_exact (fun _ => some (str "abc")) ⟨id, id, id, fun _ => [0xAB, 0x01]⟩
        (str "/tmp/sdk.zip") (str "md5", fun _ => [0xAB, 0x01]) (by simp)).2.2.2.2
        (str "abc") (str "ab01") [] (str " ") rfl (by decide) (by decide)⟩

/-- C16: for every type other than `sha256`, `sha512`, `sha1`, `md5` and `none`, `Verify`
returns false for every path, every file contents (readable or not) and every `Value`;
among them the empty type and `SHA256`, also with the empty `Value`. -/
theorem Verify_unknown_type (readFile : GoString → Option GoString) (d : Digests)
    (path value t : GoString)
    (h1 : t ≠ str "sha256") (h2 : t ≠ str "sha512") (h3 : t ≠ str "sha1")
    (h4 : t ≠ str "md5") (h5 : t ≠ str "none") :
    Checksum.Verify readFile d { Value := value, Type_ := t } path = false := by
  cases hr : readFile path with
  | none => exact Verify_of_read_error readFile d _ path hr
  | some data =>
    exact Verify_of_return readFile d _ path data false hr
      (selectHash_other d value data t h1 h2 h3 h4 h5)

/-- C16, at the type `SHA256` and at the empty type, with the empty `Value`, the digest of
every file being empty. -/
theorem Verify_unknown_type_witness :
    Checksum.Verify (fun _ => some (str "abc")) ⟨fun _ => [], id, id, id⟩
        { Value := str "", Type_ := str "SHA256" } (str "/tmp/sdk.zip") = false
      ∧ Checksum.Verify (fun _ => some (str "abc")) ⟨fun _ => [], id, id, id⟩
        { Value := str "", Type_ := str "" } (str "/tmp/sdk.zip") = false :=
  ⟨Verify_unknown_type (fun _ => some (str "abc")) ⟨fun _ => [], id, id, id⟩
      (str "/tmp/sdk.zip") (str "") (str "SHA256")
      (by decide) (by decide) (by decide) (by decide) (by decide),
    Verify_unknown_type (fun _ => some (str "abc")) ⟨fun _ => [], id, id, id⟩
      (str "/tmp/sdk.zip") (str "") (str "")
      (by decide) (by decide) (by decide) (by decide) (by decide)⟩

/-! ## Quotes inside quoted text: claims C13 and C14 -/

/-- C13 (fails on the code): `pwsh.unset` puts the escaped name between the quotes of the
path as it is. For the names `Path`, the empty name and `A'B` the escaped name brings its
own enclosing quotes, and the body between `Remove-Item -Path '` and `';` has an unescaped
single quote at position 5; for `OLD_VAR` the body has none. -/
theorem pwsh_unset_quote_terminated :
    (pwsh.unset (str "Path") = str "Remove-Item -Path '" ++ str "env:/'Path'" ++ str "';"
        ∧ firstUnescapedQuote (str "env:/'Path'") 0 = some 5)
      ∧ (pwsh.unset (str "") = str "Remove-Item -Path '" ++ str "env:/''" ++ str "';"
        ∧ firstUnescapedQuote (str "env:/''") 0 = some 5)
      ∧ (pwsh.unset (str "A'B") = str "Remove-Item -Path '" ++ str "env:/'A`'B'" ++ str "';"
        ∧ firstUnescapedQuote (str "env:/'A`'B'") 0 = some 5)
      ∧ (pwsh.unset (str "OLD_VAR")
          = str "Remove-Item -Path '" ++ str "env:/OLD_VAR" ++ str "';"
        ∧ firstUnescapedQuote (str "env:/OLD_VAR") 0 = none) := by
  decide!

/-- C14 (fails on the code): a backtick of the input is written to the output as it is.
For the input backtick, quote the output is quote, backtick, backtick, quote, quote: read
after the opening quote, the first unescaped quote is at position 2, not at the last
position 3. For the input `a`, backtick the output is quote, `a`, backtick, quote: the
backtick consumes the closing quote and no unescaped quote is met. For a lone quote the
first unescaped quote is the last character. -/
theorem PowerShellEscape_quote_scan :
    (PowerShellEscape (str "`'") = str "'``''"
        ∧ firstUnescapedQuote (PowerShellEscape (str "`'")).tail 0 = some 2
        ∧ (PowerShellEscape (str "`'")).tail.length - 1 = 3)
      ∧ (PowerShellEscape (str "a`") = str "'a`'"
        ∧ firstUnescapedQuote (PowerShellEscape (str "a`")).tail 0 = none)
      ∧ (PowerShellEscape (str "'") = str "'`''"
        ∧ firstUnescapedQuote (PowerShellEscape (str "'")).tail 0 = some 2
        ∧ (PowerShellEscape (str "'")).tail.length - 1 = 2) := by
  decide!

/-! ## The encoding of the scopes: claim C15 -/

/-- C15: as integers `Global`, `Project`, `Session` are 0, 1, 2, so `Global` < `Project`
< `Session`; the three scope constants are pairwise distinct and so are the three location
constants; for two recognised scopes, the first overrides the second by the precedence of
the spec exactly when the second is smaller as an integer, and of two distinct scopes
exactly one overrides the other. -/
theorem scope_encoding :
    (Global = 0 ∧ Project = 1 ∧ Session = 2 ∧ Global < Project ∧ Project < Session)
      ∧ (Global ≠ Project ∧ Global ≠ Session ∧ Project ≠ Session)
      ∧ (OriginalLocation ≠ GlobalLocation ∧ OriginalLocation ≠ ShellLocation
          ∧ GlobalLocation ≠ ShellLocation)
      ∧ (∀ a b : UseScope, a ∈ [Global, Project, Session] → b ∈ [Global, Project, Session] →
          (specOverrides a b = true ↔ b < a)
          ∧ (a ≠ b →
              (specOverrides a b = true ∨ specOverrides b a = true)
              ∧ ¬ (specOverrides a b = true ∧ specOverrides b a = true))) := by
  refine ⟨by decide, by decide, by decide, ?_⟩
  intro a b ha hb
  simp only [List.mem_cons, List.mem_singleton, List.not_mem_nil, or_false] at ha hb
  rcases ha with rfl | rfl | rfl <;> rcases hb with rfl | rfl | rfl <;> decide

/-- C15, at the scopes `Session` and `Global`. -/
theorem scope_encoding_witness :
    (specOverrides Session Global = true ↔ Global < Session)
      ∧ (Session ≠ Global →
          (specOverrides Session Global = true ∨ specOverrides Global Session = true)
          ∧ ¬ (specOverrides Session Global = true ∧ specOverrides Global Session = true)) :=
  scope_encoding.2.2.2 Session Global (by decide) (by decide)

end Vfox
